import Mathlib

/-!
Verification of the Researcher repository's agent core: the workspace path
boundary (`core/workspace.py`), the tool result contract (`core/tool.py`,
`tools/control_tools.py`), the file edit tool (`tools/file_tools.py`), the
shell tool (`tools/bash_tool.py`), the agent execution loop (`core/agent.py`)
and agent delegation (`tools/agent_tool.py`), shallowly embedded as
executable Lean definitions.
-/

namespace Researcher

/-- Metadata values stored in a `ToolResult.metadata` mapping: the repository
only ever stores strings, integers, booleans and lists of path strings. -/
inductive MVal where
  | s (v : String)
  | i (v : Int)
  | b (v : Bool)
  | strs (v : List String)
deriving DecidableEq, Repr

/-- A Python `dict[str, ...]` as an association list in insertion order. -/
abbrev Dict := List (String × MVal)

/-- First-match association lookup, `d.get(k)` on a dict with unique keys. -/
def dictLookup : Dict → String → Option MVal
  | [], _ => none
  | (k', v') :: rest, k => if k' = k then some v' else dictLookup rest k

/-- Python dict assignment `d[k] = v`: replace the entry if the key is
present, otherwise append it, preserving insertion order. -/
def dictSet : Dict → String → MVal → Dict
  | [], k, v => [(k, v)]
  | (k', v') :: rest, k, v =>
      if k' = k then (k, v) :: rest else (k', v') :: dictSet rest k v

/-- Python `d.update(upd)`: assign every entry of `upd` into `d` in order. -/
def dictUpdate (d : Dict) (upd : Dict) : Dict :=
  upd.foldl (fun acc p => dictSet acc p.1 p.2) d

/-- Structure `ToolResult` from `core/tool.py`: the uniform envelope every tool and
every agent run returns. -/
structure ToolResult where
  success : Bool
  content : String := ""
  error : Option String := none
  metadata : Dict := []
deriving DecidableEq, Repr

instance : Inhabited ToolResult := ⟨⟨false, "", none, []⟩⟩

/-! ## Workspace boundary (`core/workspace.py`)

POSIX paths are modelled as `pathlib.PurePosixPath` does: an absolute flag
plus the list of non-trivial components, where empty and `.` components are
dropped at parse time and `..` components are kept. `Path.resolve` is
modelled lexically (the workspaces in question contain no symlinks). -/

/-- A `pathlib` path: absolute flag plus parts (with `.` and empty components
already dropped, `..` kept, as `PurePosixPath` stores them). -/
structure PyPath where
  absolute : Bool
  parts : List String
deriving DecidableEq, Repr

/-- Split a character list on `/` separators. -/
def splitOnSlash : List Char → List Char → List String
  | [], cur => [String.mk cur.reverse]
  | c :: rest, cur =>
      if c = '/' then String.mk cur.reverse :: splitOnSlash rest []
      else splitOnSlash rest (c :: cur)

/-- Parse a POSIX path string the way `pathlib.Path` does. -/
def parsePath (p : String) : PyPath :=
  { absolute := match p.data with | '/' :: _ => true | _ => false,
    parts := (splitOnSlash p.data []).filter (fun c => c ≠ "" && c ≠ ".") }

/-- Lexical `..` elimination performed by `Path.resolve` on an absolute
component list (at the root, `..` stays at the root). -/
def resolveParts (parts : List String) : List String :=
  parts.foldl (fun acc c => if c = ".." then acc.dropLast else acc ++ [c]) []

/-- Structure `WorkspaceManager`: holds the canonical absolute workspace root, i.e. the
parts of `Path(workspace_dir).resolve()`. -/
structure WorkspaceManager where
  workspace_dir : List String
deriving DecidableEq, Repr

/-- Method `WorkspaceManager.resolve_path` (workspace.py lines 66-93): an absolute
path is returned as-is, unresolved; a relative path is joined onto the
workspace root and resolved. -/
def WorkspaceManager.resolve_path (ws : WorkspaceManager) (p : PyPath) : PyPath :=
  if p.absolute then p
  else { absolute := true, parts := resolveParts (ws.workspace_dir ++ p.parts) }

/-- Method `WorkspaceManager.is_path_safe` (workspace.py lines 95-122):
`resolved.relative_to(workspace_dir)` succeeds exactly when the workspace
parts are a leading run of the resolved path's parts, `..` components
included literally. -/
def WorkspaceManager.is_path_safe (ws : WorkspaceManager) (p : PyPath) : Bool :=
  let resolved := ws.resolve_path p
  resolved.absolute && ws.workspace_dir.isPrefixOf resolved.parts

/-- The filesystem location a path actually denotes: full `..` elimination of
the path (joined onto the root when relative), as `Path.resolve` would
compute for the spec's `isWithin(resolve(p))` check. -/
def canonicalLocation (ws : WorkspaceManager) (p : PyPath) : List String :=
  if p.absolute then resolveParts p.parts
  else resolveParts (ws.workspace_dir ++ p.parts)

/-- Modelled from the spec: `isWithin` as §4.1 describes it — canonicalize
via `resolve`, then succeed iff the canonical result is equal to or a
descendant of the canonical workspace root. -/
def spec_isWithin (ws : WorkspaceManager) (p : PyPath) : Bool :=
  ws.workspace_dir.isPrefixOf (canonicalLocation ws p)

/-! ## Edit tool (`tools/file_tools.py`, `EditTool`)

Python string semantics over `List Char`: `content.count(old)` counts
non-overlapping occurrences scanning left to right (`len(content)+1` for the
empty pattern), `old in content` is substring containment, and
`content.replace(old, new)` rewrites the non-overlapping occurrences left to
right. -/

/-- Non-overlapping occurrence count for a non-empty pattern: on a match,
skip the whole match (`pat.length` characters of `c :: rest`). -/
def pyCountAux (pat : List Char) : List Char → Nat
  | [] => 0
  | c :: rest =>
      if pat.isPrefixOf (c :: rest) then
        pyCountAux pat (rest.drop (pat.length - 1)) + 1
      else
        pyCountAux pat rest
termination_by s => s.length
decreasing_by
  all_goals simp
  all_goals omega

/-- Python `content.count(old)`. -/
def pyCount (content old : List Char) : Nat :=
  if old = [] then content.length + 1 else pyCountAux old content

/-- Python `old in content`. -/
def isSubstring (pat : List Char) : List Char → Bool
  | [] => pat.isEmpty
  | c :: rest => pat.isPrefixOf (c :: rest) || isSubstring pat rest

/-- Replacement of non-overlapping occurrences for a non-empty pattern. -/
def pyReplaceAux (pat new : List Char) : List Char → List Char
  | [] => []
  | c :: rest =>
      if pat.isPrefixOf (c :: rest) then
        new ++ pyReplaceAux pat new (rest.drop (pat.length - 1))
      else
        c :: pyReplaceAux pat new rest
termination_by s => s.length
decreasing_by
  all_goals simp
  all_goals omega

/-- Python `content.replace(old, new)`: for the empty pattern, `new` is
interleaved before every character and once at the end. -/
def pyReplace (content old new : List Char) : List Char :=
  if old = [] then new ++ content.foldr (fun c acc => c :: (new ++ acc)) []
  else pyReplaceAux old new content

/-- The `old_string[:100]` preview used in the not-found error message. -/
def previewString (old_string : List Char) : String :=
  String.mk (old_string.take 100) ++ (if old_string.length > 100 then "..." else "")

/-- Outcome of an edit: the `ToolResult` plus the content written back. -/
structure EditOutcome where
  result : ToolResult
  written : Option (List Char)
deriving DecidableEq, Repr

/-- Core of `EditTool.execute` (file_tools.py lines 410-455), entered once the
path has passed the workspace safety check and names an existing regular file
with the given `content`. -/
def EditTool.applyEdit (filepath : String) (content old_string new_string : List Char) :
    EditOutcome :=
  if !(isSubstring old_string content) then
    { result := { success := false,
                  error := some ("old_string not found in file: " ++ previewString old_string) },
      written := none }
  else
    let occurrence_count := pyCount content old_string
    if occurrence_count > 1 then
      { result := { success := false,
                    error := some ("old_string appears " ++ toString occurrence_count
                      ++ " times in file. It must be unique to prevent accidental replacements.") },
        written := none }
    else
      let new_content := pyReplace content old_string new_string
      { result := { success := true,
                    content := "Edited " ++ filepath ++ ": replaced 1 occurrence",
                    metadata := [("filepath", MVal.s filepath),
                                 ("old_length", MVal.i old_string.length),
                                 ("new_length", MVal.i new_string.length),
                                 ("size_change",
                                  MVal.i ((new_content.length : Int) - (content.length : Int)))] },
        written := some new_content }

/-! ## Shell tool (`tools/bash_tool.py`, `BashTool`) -/

/-- Combined stdout/stderr display text (bash_tool.py 243-253), applied to
the already-truncated streams. -/
def BashTool.combinedOutput (stdout stderr : String) : String :=
  let combined0 := if stdout ≠ "" then stdout else ""
  let combined1 :=
    if stderr ≠ "" then
      (if combined0 ≠ "" then combined0 ++ "\n--- stderr ---\n" else combined0) ++ stderr
    else combined0
  if combined1 = "" then "(no output)" else combined1

/-- Constant `BashTool.MAX_OUTPUT_LENGTH`. -/
def BashTool.MAX_OUTPUT_LENGTH : Nat := 50000

/-- Per-stream truncation with the marker appended (bash_tool.py 230-239). -/
def BashTool.truncateOutput (s : String) : String :=
  if s.length > BashTool.MAX_OUTPUT_LENGTH then
    (s.take BashTool.MAX_OUTPUT_LENGTH)
      ++ "\n\n[Output truncated at " ++ toString BashTool.MAX_OUTPUT_LENGTH ++ " characters]"
  else s

/-- Tail of `BashTool._run_command` (bash_tool.py 226-279) for a process that
ran to completion: `returncode` is `process.returncode` (`or 0` turns `None`
into `0`), `stdout0`/`stderr0` the decoded streams. -/
def BashTool.buildResult (command : String) (returncode : Option Int)
    (stdout0 stderr0 : String) : ToolResult :=
  let exit_code : Int := match returncode with | none => 0 | some n => n
  let stdout := BashTool.truncateOutput stdout0
  let stderr := BashTool.truncateOutput stderr0
  let success := exit_code == 0
  let combined_output := BashTool.combinedOutput stdout stderr
  let metadata : Dict :=
    [("command", MVal.s command), ("exit_code", MVal.i exit_code),
     ("stdout", MVal.s stdout), ("stderr", MVal.s stderr), ("timed_out", MVal.b false)]
  if success then
    { success := true, content := combined_output, metadata := metadata }
  else
    { success := false, content := combined_output,
      error := some ("Command exited with code " ++ toString exit_code),
      metadata := metadata }

/-! ## LLM data model (`llm/base.py`) and completion tool
(`tools/control_tools.py`) -/

/-- Structure `FunctionCall`: name plus named arguments (argument values drawn from the
same value universe as metadata). -/
structure FunctionCall where
  name : String
  arguments : Dict
deriving DecidableEq, Repr

/-- Structure `ToolCall`: call id plus the function call. -/
structure ToolCall where
  id : String
  function : FunctionCall
deriving DecidableEq, Repr

/-- Structure `Message` from `llm/base.py`. -/
structure Message where
  role : String
  content : String
  tool_calls : Option (List ToolCall) := none
  tool_call_id : Option String := none
  name : Option String := none
deriving DecidableEq, Repr

/-- Structure `LLMResponse`: assistant text plus requested tool calls. -/
structure LLMResponse where
  content : String
  tool_calls : List ToolCall
deriving DecidableEq, Repr

/-- Method `CompleteTool.execute` (control_tools.py 62-82): echoes the flag and
summary, tags explicit completion, and sets no error even on failure. -/
def CompleteTool.execute (success : Bool) (summary : String) : ToolResult :=
  { success := success, content := summary,
    metadata := [("explicitly_completed", MVal.b true)] }

/-- The `CompleteTool` as the loop invokes it: Python binds `**arguments` to the
`execute(success, summary)` signature and raises `TypeError` (caught by the
loop) when the required arguments are missing or mistyped. -/
def CompleteTool.behavior : Dict → Except String ToolResult := fun arguments =>
  match dictLookup arguments "success", dictLookup arguments "summary" with
  | some (MVal.b success), some (MVal.s summary) =>
      Except.ok (CompleteTool.execute success summary)
  | _, _ => Except.error "complete_task() missing required keyword arguments"

/-! ## Agent execution loop (`core/agent.py`, `BaseAgent.run`)

A tool's `execute` is modelled as `Dict → Except String ToolResult`: `ok` a
returned result, `error` a raised exception's text. The LLM client's
`generate` is `List Message → Except String LLMResponse`, a function of the
history, with `error` a raised transport exception. -/

/-- Structure holding the `BaseAgent` configuration: the fields of `BaseAgent.__init__` that the
loop consults. -/
structure AgentConfig where
  agent_type : String
  system_prompt : String
  tools : List (String × (Dict → Except String ToolResult))
  llm : List Message → Except String LLMResponse
  max_steps : Nat

/-- The `self.tools[name]` lookup (names are unique in the repository's agents). -/
def lookupTool (tools : List (String × (Dict → Except String ToolResult)))
    (name : String) : Option (Dict → Except String ToolResult) :=
  match tools with
  | [] => none
  | (n, f) :: rest => if n = name then some f else lookupTool rest name

/-- One tool dispatch (agent.py 151-172): unknown tools and raising tools
become failed results; a `filepath` metadata entry on a returned result is
appended to `output_files` (every tool of this repository stores `filepath`
as a string, and Python's truthiness drops an empty one). -/
def BaseAgent.execCall (cfg : AgentConfig) (output_files : List String)
    (call : ToolCall) : ToolResult × List String :=
  match lookupTool cfg.tools call.function.name with
  | none =>
      ({ success := false, error := some ("Unknown tool: " ++ call.function.name) },
       output_files)
  | some tool =>
      match tool call.function.arguments with
      | Except.ok tool_result =>
          (tool_result,
           match dictLookup tool_result.metadata "filepath" with
           | some (MVal.s p) => if p = "" then output_files else output_files ++ [p]
           | _ => output_files)
      | Except.error e =>
          ({ success := false, error := some ("Tool execution error: " ++ e) },
           output_files)

/-- The `tool` message appended for a non-completion call (agent.py 199-210):
failures carry `"Error: "` plus the error text (`"None"` when absent, as the
f-string renders it). -/
def BaseAgent.toolMessage (call : ToolCall) (tool_result : ToolResult) : Message :=
  { role := "tool",
    content :=
      if tool_result.success then tool_result.content
      else "Error: " ++ (match tool_result.error with | some e => e | none => "None"),
    tool_call_id := some call.id,
    name := some call.function.name }

/-- The loop metadata added on explicit completion (agent.py 189-196). -/
def BaseAgent.loopMetadata (cfg : AgentConfig) (step : Nat)
    (output_files : List String) : Dict :=
  [("agent_type", MVal.s cfg.agent_type),
   ("steps_used", MVal.i (step : Int)),
   ("output_files", MVal.strs output_files)]

/-- Outcome of dispatching one response's tool calls: either the loop
continues with updated accumulators and history, or a completion call ended
the run. -/
inductive CallsOutcome where
  | next (output_files : List String) (messages : List Message)
  | done (result : ToolResult) (messages : List Message)
deriving Inhabited

/-- The `for tool_call in response.tool_calls` body (agent.py 144-210):
execute the call, return immediately — remaining calls unexecuted — when its
name is `complete_task`, otherwise append the tool message and continue. -/
def BaseAgent.runCalls (cfg : AgentConfig) (step : Nat) :
    List ToolCall → List String → List Message → CallsOutcome
  | [], output_files, messages => CallsOutcome.next output_files messages
  | call :: rest, output_files, messages =>
      let r := BaseAgent.execCall cfg output_files call
      if call.function.name = "complete_task" then
        CallsOutcome.done
          { r.1 with metadata := dictUpdate r.1.metadata (BaseAgent.loopMetadata cfg step r.2) }
          messages
      else
        BaseAgent.runCalls cfg step rest r.2 (messages ++ [BaseAgent.toolMessage call r.1])

/-- The `while step < self.max_steps` loop (agent.py 100-235): `step` counts
model calls made so far, `fuel` the iterations remaining (`max_steps - step`).
Exits: budget exhausted, model-client exception (the outermost `except`),
abnormal termination on a call-free response, or explicit completion. -/
def BaseAgent.runLoop (cfg : AgentConfig) (messages : List Message)
    (output_files : List String) (step : Nat) : Nat → ToolResult × List Message
  | 0 =>
      ({ success := false, content := "",
         error := some ("Max steps (" ++ toString cfg.max_steps ++ ") reached without completion"),
         metadata := BaseAgent.loopMetadata cfg step output_files },
       messages)
  | fuel + 1 =>
      match cfg.llm messages with
      | Except.error e =>
          ({ success := false,
             error := some ("Agent execution error: " ++ e),
             metadata := BaseAgent.loopMetadata cfg (step + 1) output_files },
           messages)
      | Except.ok response =>
          let assistant_message : Message :=
            { role := "assistant", content := response.content,
              tool_calls := if response.tool_calls = [] then none else some response.tool_calls }
          let messages := messages ++ [assistant_message]
          if response.tool_calls = [] then
            ({ success := false, content := response.content,
               error := some "Agent did not explicitly complete the task (missing complete_task call)",
               metadata := BaseAgent.loopMetadata cfg (step + 1) output_files
                 ++ [("abnormal_termination", MVal.b true)] },
             messages)
          else
            match BaseAgent.runCalls cfg (step + 1) response.tool_calls output_files messages with
            | CallsOutcome.done result messages => (result, messages)
            | CallsOutcome.next output_files messages =>
                BaseAgent.runLoop cfg messages output_files (step + 1) fuel

/-- The history `BaseAgent.run` starts from: the system message from
construction plus the task appended as a user message (agent.py 66, 98). -/
def BaseAgent.initialMessages (cfg : AgentConfig) (task_description : String) : List Message :=
  [{ role := "system", content := cfg.system_prompt },
   { role := "user", content := task_description }]

/-- Method `BaseAgent.run` (agent.py 73-235): the returned `ToolResult` paired with
the final `self.messages` history. -/
def BaseAgent.run (cfg : AgentConfig) (task_description : String) :
    ToolResult × List Message :=
  BaseAgent.runLoop cfg (BaseAgent.initialMessages cfg task_description) [] 0 cfg.max_steps

/-- Count of `assistant` messages in a history: one is appended per
`llm.generate` call that returns, so this counts the model calls the loop
completed. -/
def countAssistant (messages : List Message) : Nat :=
  (messages.filter (fun m => m.role = "assistant")).length

/-! ## Agent delegation (`tools/agent_tool.py`, `CallAgentTool`) -/

/-- Python `str.strip()`: drop leading and trailing whitespace. -/
def pyStrip (s : String) : String :=
  String.mk (((s.data.dropWhile Char.isWhitespace).reverse.dropWhile Char.isWhitespace).reverse)

/-- Method `CallAgentTool.execute` (agent_tool.py 111-216). Here `create` models the
`_create_agent` call's outcome and `subRun` the nested `agent.run`, with
`error` a raised exception's text; `not task_description or not
task_description.strip()` collapses to the stripped text being empty. -/
def CallAgentTool.execute (subRun : String → Except String ToolResult)
    (create : Except String Unit) (agent_type : String)
    (task_description : String) (context_files : List String) : ToolResult :=
  if pyStrip task_description = "" then
    { success := false, error := some "task_description must not be empty" }
  else
    match create with
    | Except.error e =>
        { success := false,
          error := some ("Failed to create " ++ agent_type ++ " agent: " ++ e),
          metadata := [("agent_type", MVal.s agent_type)] }
    | Except.ok _ =>
        let full_task :=
          if context_files ≠ [] then
            task_description ++ "\n\nContext files to review: "
              ++ String.intercalate ", " context_files
              ++ "\nRead these files first to understand the existing work."
          else task_description
        match subRun full_task with
        | Except.ok result => result
        | Except.error e =>
            { success := false,
              error := some ("Agent execution failed: " ++ e),
              metadata := [("agent_type", MVal.s agent_type), ("exception", MVal.s e)] }

/-- The three metadata keys §6's sub-agent result contract requires: an
`agent_type` string, a non-negative `steps_used` integer, and an
`output_files` list of path strings. -/
def hasAgentMetadata (r : ToolResult) : Prop :=
  (∃ a, dictLookup r.metadata "agent_type" = some (MVal.s a))
  ∧ (∃ n : Nat, dictLookup r.metadata "steps_used" = some (MVal.i (n : Int)))
  ∧ (∃ fs, dictLookup r.metadata "output_files" = some (MVal.strs fs))

/-! ## Example configurations used to exercise the loop on concrete runs -/

/-- A well-formed `complete_task` call with `success=True`. -/
def sampleCompleteCall : ToolCall :=
  ⟨"call-1", ⟨"complete_task", [("success", MVal.b true), ("summary", MVal.s "done")]⟩⟩

/-- An agent whose model client immediately answers with plain text and no
tool calls. -/
def textOnlyCfg : AgentConfig :=
  { agent_type := "writer", system_prompt := "sys",
    tools := [("complete_task", CompleteTool.behavior)],
    llm := fun _ => Except.ok ⟨"plain text answer", []⟩, max_steps := 3 }

/-- An agent whose model client always requests one unregistered
non-completion tool, so the budget is exhausted. -/
def loopingCfg : AgentConfig :=
  { agent_type := "searcher", system_prompt := "sys",
    tools := [],
    llm := fun _ => Except.ok ⟨"", [⟨"id-1", ⟨"noop", []⟩⟩]⟩, max_steps := 2 }

/-- An agent with the completion tool registered and a raising tool. -/
def raisingCfg : AgentConfig :=
  { agent_type := "orchestrator", system_prompt := "sys",
    tools := [("boom", fun _ => Except.error "kaboom"),
              ("complete_task", CompleteTool.behavior)],
    llm := fun _ => Except.error "unused", max_steps := 5 }

/-- An agent with no tools registered at all. -/
def bareCfg : AgentConfig :=
  { agent_type := "analyzer", system_prompt := "sys",
    tools := [],
    llm := fun _ => Except.error "unused", max_steps := 5 }

end Researcher

namespace Researcher

lemma isPrefixOf_append_drop :
    ∀ p s : List Char, p.isPrefixOf s = true → p ++ s.drop p.length = s := by
  intro p
  induction p with
  | nil => intro s _; simp
  | cons a p ih =>
    intro s h
    cases s with
    | nil => simp [List.isPrefixOf] at h
    | cons b s' =>
      simp only [List.isPrefixOf, Bool.and_eq_true, beq_iff_eq] at h
      obtain ⟨rfl, h2⟩ := h
      simpa using ih s' h2

lemma isSubstring_iff_countAux_pos (pat : List Char) (hp : pat ≠ []) :
    ∀ s : List Char, isSubstring pat s = true ↔ 1 ≤ pyCountAux pat s := by
  intro s
  induction s with
  | nil =>
    simp [isSubstring, pyCountAux, List.isEmpty_iff, hp]
  | cons c rest ih =>
    by_cases h : pat.isPrefixOf (c :: rest) = true
    · simp [isSubstring, pyCountAux, h]
    · have h' : pat.isPrefixOf (c :: rest) = false := by
        simp only [← Bool.not_eq_true]; exact h
      simp [isSubstring, pyCountAux, h', ih]

lemma replaceAux_of_countAux_zero (pat new : List Char) :
    ∀ s : List Char, pyCountAux pat s = 0 → pyReplaceAux pat new s = s := by
  intro s
  induction s with
  | nil => intro _; simp [pyReplaceAux]
  | cons c rest ih =>
    intro h0
    by_cases h : pat.isPrefixOf (c :: rest) = true
    · simp [pyCountAux, h] at h0
    · have h' : pat.isPrefixOf (c :: rest) = false := by
        simp only [← Bool.not_eq_true]; exact h
      simp [pyCountAux, h'] at h0
      simp [pyReplaceAux, h', ih h0]

lemma countAux_one_decomp (pat new : List Char) (hp : pat ≠ []) :
    ∀ s : List Char, pyCountAux pat s = 1 →
      ∃ a b, s = a ++ pat ++ b ∧ pyReplaceAux pat new s = a ++ new ++ b := by
  intro s
  induction s with
  | nil => intro h1; simp [pyCountAux] at h1
  | cons c rest ih =>
    intro h1
    by_cases h : pat.isPrefixOf (c :: rest) = true
    · have hdrop : (c :: rest).drop pat.length = rest.drop (pat.length - 1) := by
        obtain ⟨m, hm⟩ : ∃ m, pat.length = m + 1 :=
          ⟨pat.length - 1, by
            have hne : pat.length ≠ 0 := by
              simpa [List.length_eq_zero] using hp
            omega⟩
        simp [hm]
      have h0 : pyCountAux pat (rest.drop (pat.length - 1)) = 0 := by
        simp [pyCountAux, h] at h1
        omega
      refine ⟨[], rest.drop (pat.length - 1), ?_, ?_⟩
      · have := isPrefixOf_append_drop pat (c :: rest) h
        simp only [List.nil_append]
        rw [← hdrop]
        exact this.symm
      · simp [pyReplaceAux, h, replaceAux_of_countAux_zero pat new _ h0]
    · have h' : pat.isPrefixOf (c :: rest) = false := by
        simp only [← Bool.not_eq_true]; exact h
      have h1' : pyCountAux pat rest = 1 := by
        simpa [pyCountAux, h'] using h1
      obtain ⟨a, b, hab, hrep⟩ := ih h1'
      refine ⟨c :: a, b, by simp [hab], ?_⟩
      simp [pyReplaceAux, h', hrep]

lemma dictLookup_dictSet_self (d : Dict) (k : String) (v : MVal) :
    dictLookup (dictSet d k v) k = some v := by
  induction d with
  | nil => simp [dictSet, dictLookup]
  | cons p rest ih =>
    obtain ⟨k0, v0⟩ := p
    by_cases h : k0 = k
    · subst h; simp [dictSet, dictLookup]
    · simp [dictSet, dictLookup, h, ih]

lemma dictLookup_dictSet_ne (d : Dict) (k k' : String) (v : MVal) (h : k' ≠ k) :
    dictLookup (dictSet d k v) k' = dictLookup d k' := by
  have hne : ¬ k = k' := fun he => h he.symm
  induction d with
  | nil => simp [dictSet, dictLookup, hne]
  | cons p rest ih =>
    obtain ⟨k0, v0⟩ := p
    by_cases h0 : k0 = k
    · subst h0; simp [dictSet, dictLookup, hne]
    · simp [dictSet, dictLookup, h0, ih]

lemma lookup_loopMetadataUpdate (d : Dict) (cfg : AgentConfig) (step : Nat)
    (fs : List String) :
    dictLookup (dictUpdate d (BaseAgent.loopMetadata cfg step fs)) "agent_type"
        = some (MVal.s cfg.agent_type)
    ∧ dictLookup (dictUpdate d (BaseAgent.loopMetadata cfg step fs)) "steps_used"
        = some (MVal.i (step : Int))
    ∧ dictLookup (dictUpdate d (BaseAgent.loopMetadata cfg step fs)) "output_files"
        = some (MVal.strs fs) := by
  have hu : dictUpdate d (BaseAgent.loopMetadata cfg step fs)
      = dictSet (dictSet (dictSet d "agent_type" (MVal.s cfg.agent_type))
          "steps_used" (MVal.i (step : Int))) "output_files" (MVal.strs fs) := rfl
  refine ⟨?_, ?_, ?_⟩
  · rw [hu, dictLookup_dictSet_ne _ _ _ _ (by decide),
      dictLookup_dictSet_ne _ _ _ _ (by decide), dictLookup_dictSet_self]
  · rw [hu, dictLookup_dictSet_ne _ _ _ _ (by decide), dictLookup_dictSet_self]
  · rw [hu, dictLookup_dictSet_self]

lemma runCalls_done_metadata (cfg : AgentConfig) (step : Nat) :
    ∀ (calls : List ToolCall) (fs : List String) (msgs : List Message)
      (result : ToolResult) (msgs2 : List Message),
      BaseAgent.runCalls cfg step calls fs msgs = CallsOutcome.done result msgs2 →
      dictLookup result.metadata "agent_type" = some (MVal.s cfg.agent_type)
      ∧ dictLookup result.metadata "steps_used" = some (MVal.i (step : Int))
      ∧ ∃ gs, dictLookup result.metadata "output_files" = some (MVal.strs gs) := by
  intro calls
  induction calls with
  | nil => intro fs msgs result msgs2 h; simp [BaseAgent.runCalls] at h
  | cons call rest ih =>
    intro fs msgs result msgs2 h
    by_cases hname : call.function.name = "complete_task"
    · simp only [BaseAgent.runCalls, hname, if_true, CallsOutcome.done.injEq] at h
      obtain ⟨hres, -⟩ := h
      subst hres
      obtain ⟨h1, h2, h3⟩ :=
        lookup_loopMetadataUpdate (BaseAgent.execCall cfg fs call).1.metadata cfg step
          (BaseAgent.execCall cfg fs call).2
      exact ⟨h1, h2, _, h3⟩
    · simp only [BaseAgent.runCalls, hname, if_false] at h
      exact ih _ _ _ _ h

lemma runCalls_append_complete (cfg : AgentConfig) (step : Nat) (c : ToolCall)
    (hc : c.function.name = "complete_task") :
    ∀ (pre : List ToolCall) (suf : List ToolCall) (fs : List String)
      (msgs : List Message),
      (∀ call ∈ pre, call.function.name ≠ "complete_task") →
      BaseAgent.runCalls cfg step (pre ++ c :: suf) fs msgs
        = BaseAgent.runCalls cfg step (pre ++ [c]) fs msgs := by
  intro pre
  induction pre with
  | nil =>
    intro suf fs msgs _
    simp [BaseAgent.runCalls, hc]
  | cons p pre ih =>
    intro suf fs msgs hpre
    have hp : p.function.name ≠ "complete_task" := hpre p (by simp)
    simp only [List.cons_append, BaseAgent.runCalls, hp, if_false]
    exact ih suf _ _ (fun call hcall => hpre call (by simp [hcall]))

lemma runCalls_append (cfg : AgentConfig) (step : Nat) :
    ∀ (pre rest : List ToolCall) (fs : List String) (msgs : List Message),
      BaseAgent.runCalls cfg step (pre ++ rest) fs msgs
        = match BaseAgent.runCalls cfg step pre fs msgs with
          | CallsOutcome.next fs2 msgs2 => BaseAgent.runCalls cfg step rest fs2 msgs2
          | CallsOutcome.done r m => CallsOutcome.done r m := by
  intro pre
  induction pre with
  | nil => intro rest fs msgs; simp [BaseAgent.runCalls]
  | cons p pre ih =>
    intro rest fs msgs
    by_cases hp : p.function.name = "complete_task"
    · simp [BaseAgent.runCalls, hp]
    · simp only [List.cons_append, BaseAgent.runCalls, hp, if_false]
      exact ih rest _ _

lemma runCalls_no_complete (cfg : AgentConfig) (step : Nat) :
    ∀ (calls : List ToolCall) (fs : List String) (msgs : List Message),
      (∀ call ∈ calls, call.function.name ≠ "complete_task") →
      ∃ fs2 tms, BaseAgent.runCalls cfg step calls fs msgs
          = CallsOutcome.next fs2 (msgs ++ tms)
        ∧ tms.map Message.role = calls.map (fun _ => "tool")
        ∧ tms.map Message.tool_call_id = calls.map (fun call => some call.id)
        ∧ tms.map Message.name = calls.map (fun call => some call.function.name) := by
  intro calls
  induction calls with
  | nil => intro fs msgs _; exact ⟨fs, [], by simp [BaseAgent.runCalls], by simp, by simp, by simp⟩
  | cons call rest ih =>
    intro fs msgs hno
    have hname : call.function.name ≠ "complete_task" := hno call (by simp)
    obtain ⟨fs2, tms, hrun, hroles, hids, hnames⟩ :=
      ih (BaseAgent.execCall cfg fs call).2
        (msgs ++ [BaseAgent.toolMessage call (BaseAgent.execCall cfg fs call).1])
        (fun c hc => hno c (by simp [hc]))
    refine ⟨fs2, BaseAgent.toolMessage call (BaseAgent.execCall cfg fs call).1 :: tms, ?_, ?_, ?_, ?_⟩
    · simp only [BaseAgent.runCalls, hname, if_false]
      rw [hrun]
      simp
    · simpa [BaseAgent.toolMessage] using hroles
    · simpa [BaseAgent.toolMessage] using hids
    · simpa [BaseAgent.toolMessage] using hnames

lemma countAssistant_append (xs ys : List Message) :
    countAssistant (xs ++ ys) = countAssistant xs + countAssistant ys := by
  simp [countAssistant, List.filter_append]

lemma runCalls_countAssistant (cfg : AgentConfig) (step : Nat) :
    ∀ (calls : List ToolCall) (fs : List String) (msgs : List Message),
      (∀ fs2 msgs2, BaseAgent.runCalls cfg step calls fs msgs = CallsOutcome.next fs2 msgs2 →
          countAssistant msgs2 = countAssistant msgs)
      ∧ (∀ r msgs2, BaseAgent.runCalls cfg step calls fs msgs = CallsOutcome.done r msgs2 →
          countAssistant msgs2 = countAssistant msgs) := by
  intro calls
  induction calls with
  | nil =>
    intro fs msgs
    constructor
    · intro fs2 msgs2 h
      simp only [BaseAgent.runCalls, CallsOutcome.next.injEq] at h
      rw [← h.2]
    · intro r msgs2 h
      simp [BaseAgent.runCalls] at h
  | cons call rest ih =>
    intro fs msgs
    by_cases hname : call.function.name = "complete_task"
    · constructor
      · intro fs2 msgs2 h
        simp [BaseAgent.runCalls, hname] at h
      · intro r msgs2 h
        simp only [BaseAgent.runCalls, hname, if_true, CallsOutcome.done.injEq] at h
        rw [← h.2]
    · have hmsg : countAssistant
          (msgs ++ [BaseAgent.toolMessage call (BaseAgent.execCall cfg fs call).1])
          = countAssistant msgs := by
        simp [countAssistant_append, countAssistant, BaseAgent.toolMessage]
      constructor
      · intro fs2 msgs2 h
        simp only [BaseAgent.runCalls, hname, if_false] at h
        rw [(ih _ _).1 fs2 msgs2 h, hmsg]
      · intro r msgs2 h
        simp only [BaseAgent.runCalls, hname, if_false] at h
        rw [(ih _ _).2 r msgs2 h, hmsg]

lemma runLoop_succ_of_toolcalls (cfg : AgentConfig) (fuel : Nat) (msgs : List Message)
    (fs : List String) (step : Nat) (response : LLMResponse)
    (hllm : cfg.llm msgs = Except.ok response) (hcalls : response.tool_calls ≠ []) :
    BaseAgent.runLoop cfg msgs fs step (fuel + 1)
      = match BaseAgent.runCalls cfg (step + 1) response.tool_calls fs
          (msgs ++ [{ role := "assistant", content := response.content,
                      tool_calls := some response.tool_calls }]) with
        | CallsOutcome.done result m2 => (result, m2)
        | CallsOutcome.next fs2 m2 => BaseAgent.runLoop cfg m2 fs2 (step + 1) fuel := by
  simp [BaseAgent.runLoop, hllm, hcalls]

lemma runLoop_hasAgentMetadata (cfg : AgentConfig) :
    ∀ (fuel : Nat) (msgs : List Message) (fs : List String) (step : Nat),
      hasAgentMetadata (BaseAgent.runLoop cfg msgs fs step fuel).1 := by
  intro fuel
  induction fuel with
  | zero =>
    intro msgs fs step
    exact ⟨⟨cfg.agent_type, by simp [BaseAgent.runLoop, BaseAgent.loopMetadata, dictLookup]⟩,
      ⟨step, by simp [BaseAgent.runLoop, BaseAgent.loopMetadata, dictLookup]⟩,
      ⟨fs, by simp [BaseAgent.runLoop, BaseAgent.loopMetadata, dictLookup]⟩⟩
  | succ fuel ih =>
    intro msgs fs step
    rcases hllm : cfg.llm msgs with e | response
    · exact ⟨⟨cfg.agent_type, by simp [BaseAgent.runLoop, hllm, BaseAgent.loopMetadata, dictLookup]⟩,
        ⟨step + 1, by simp [BaseAgent.runLoop, hllm, BaseAgent.loopMetadata, dictLookup]⟩,
        ⟨fs, by simp [BaseAgent.runLoop, hllm, BaseAgent.loopMetadata, dictLookup]⟩⟩
    · by_cases hcalls : response.tool_calls = []
      · exact ⟨⟨cfg.agent_type,
          by simp [BaseAgent.runLoop, hllm, hcalls, BaseAgent.loopMetadata, dictLookup]⟩,
          ⟨step + 1, by simp [BaseAgent.runLoop, hllm, hcalls, BaseAgent.loopMetadata, dictLookup]⟩,
          ⟨fs, by simp [BaseAgent.runLoop, hllm, hcalls, BaseAgent.loopMetadata, dictLookup]⟩⟩
      · rw [runLoop_succ_of_toolcalls cfg fuel msgs fs step response hllm hcalls]
        cases hrc : BaseAgent.runCalls cfg (step + 1) response.tool_calls fs
            (msgs ++ [{ role := "assistant", content := response.content,
                        tool_calls := some response.tool_calls }]) with
        | next fs2 msgs2 => exact ih msgs2 fs2 (step + 1)
        | done result msgs2 =>
          obtain ⟨h1, h2, gs, h3⟩ := runCalls_done_metadata cfg (step + 1) _ _ _ _ _ hrc
          exact ⟨⟨cfg.agent_type, h1⟩, ⟨step + 1, h2⟩, ⟨gs, h3⟩⟩

lemma runLoop_succ_next (cfg : AgentConfig) (fuel : Nat) (msgs : List Message)
    (fs : List String) (step : Nat) (response : LLMResponse)
    (fs2 : List String) (msgs2 : List Message)
    (hllm : cfg.llm msgs = Except.ok response) (hcalls : response.tool_calls ≠ [])
    (hrc : BaseAgent.runCalls cfg (step + 1) response.tool_calls fs
        (msgs ++ [{ role := "assistant", content := response.content,
                    tool_calls := some response.tool_calls }])
      = CallsOutcome.next fs2 msgs2) :
    BaseAgent.runLoop cfg msgs fs step (fuel + 1)
      = BaseAgent.runLoop cfg msgs2 fs2 (step + 1) fuel := by
  rw [runLoop_succ_of_toolcalls cfg fuel msgs fs step response hllm hcalls, hrc]

lemma runLoop_succ_done (cfg : AgentConfig) (fuel : Nat) (msgs : List Message)
    (fs : List String) (step : Nat) (response : LLMResponse)
    (result : ToolResult) (msgs2 : List Message)
    (hllm : cfg.llm msgs = Except.ok response) (hcalls : response.tool_calls ≠ [])
    (hrc : BaseAgent.runCalls cfg (step + 1) response.tool_calls fs
        (msgs ++ [{ role := "assistant", content := response.content,
                    tool_calls := some response.tool_calls }])
      = CallsOutcome.done result msgs2) :
    BaseAgent.runLoop cfg msgs fs step (fuel + 1) = (result, msgs2) := by
  rw [runLoop_succ_of_toolcalls cfg fuel msgs fs step response hllm hcalls, hrc]

lemma countAssistant_of_tools (tms : List Message)
    (h : ∀ m ∈ tms, m.role = "tool") : countAssistant tms = 0 := by
  induction tms with
  | nil => simp [countAssistant]
  | cons m rest ih =>
    have hm : m.role = "tool" := h m (by simp)
    simp [countAssistant, hm] at ih ⊢
    exact ih (fun m' hm' => h m' (by simp [hm']))

lemma roles_all_tool (tms : List Message) :
    ∀ calls : List ToolCall,
      tms.map Message.role = calls.map (fun _ => "tool") →
      ∀ m ∈ tms, m.role = "tool" := by
  induction tms with
  | nil => intro calls _ m hm; simp at hm
  | cons t rest ih =>
    intro calls h m hm
    cases calls with
    | nil => simp at h
    | cons c cs =>
      simp only [List.map_cons, List.cons.injEq] at h
      rcases List.mem_cons.mp hm with rfl | hm'
      · exact h.1
      · exact ih cs h.2 m hm'

lemma runLoop_steps_le (cfg : AgentConfig) :
    ∀ (fuel : Nat) (msgs : List Message) (fs : List String) (step : Nat),
      ∃ n : Nat, dictLookup (BaseAgent.runLoop cfg msgs fs step fuel).1.metadata "steps_used"
          = some (MVal.i (n : Int))
        ∧ n ≤ step + fuel
        ∧ countAssistant (BaseAgent.runLoop cfg msgs fs step fuel).2
            ≤ countAssistant msgs + fuel := by
  intro fuel
  induction fuel with
  | zero =>
    intro msgs fs step
    refine ⟨step, ?_, by omega, ?_⟩
    · simp [BaseAgent.runLoop, BaseAgent.loopMetadata, dictLookup]
    · simp [BaseAgent.runLoop]
  | succ fuel ih =>
    intro msgs fs step
    rcases hllm : cfg.llm msgs with e | response
    · refine ⟨step + 1, ?_, by omega, ?_⟩
      · simp [BaseAgent.runLoop, hllm, BaseAgent.loopMetadata, dictLookup]
      · simp only [BaseAgent.runLoop, hllm]
        omega
    · by_cases hcalls : response.tool_calls = []
      · refine ⟨step + 1, ?_, by omega, ?_⟩
        · simp [BaseAgent.runLoop, hllm, hcalls, BaseAgent.loopMetadata, dictLookup]
        · simp only [BaseAgent.runLoop, hllm, hcalls, if_true, reduceIte]
          rw [countAssistant_append]
          simp [countAssistant]
      · cases hrc : BaseAgent.runCalls cfg (step + 1) response.tool_calls fs
            (msgs ++ [{ role := "assistant", content := response.content,
                        tool_calls := some response.tool_calls }]) with
        | next fs2 msgs2 =>
          rw [runLoop_succ_next cfg fuel msgs fs step response fs2 msgs2 hllm hcalls hrc]
          obtain ⟨n, h1, h2, h3⟩ := ih msgs2 fs2 (step + 1)
          have hca : countAssistant msgs2 = countAssistant msgs + 1 := by
            have hpres := (runCalls_countAssistant cfg (step + 1) response.tool_calls fs
              (msgs ++ [{ role := "assistant", content := response.content,
                          tool_calls := some response.tool_calls }])).1 fs2 msgs2 hrc
            rw [hpres, countAssistant_append]
            simp [countAssistant]
          exact ⟨n, h1, by omega, by omega⟩
        | done result msgs2 =>
          rw [runLoop_succ_done cfg fuel msgs fs step response result msgs2 hllm hcalls hrc]
          obtain ⟨-, h2, -, -⟩ := runCalls_done_metadata cfg (step + 1) _ _ _ _ _ hrc
          have hca : countAssistant msgs2 = countAssistant msgs + 1 := by
            have hpres := (runCalls_countAssistant cfg (step + 1) response.tool_calls fs
              (msgs ++ [{ role := "assistant", content := response.content,
                          tool_calls := some response.tool_calls }])).2 result msgs2 hrc
            rw [hpres, countAssistant_append]
            simp [countAssistant]
          refine ⟨step + 1, h2, by omega, ?_⟩
          show countAssistant msgs2 ≤ countAssistant msgs + (fuel + 1)
          omega

lemma runLoop_exhausts (cfg : AgentConfig)
    (hok : ∀ msgs, ∃ r, cfg.llm msgs = Except.ok r ∧ r.tool_calls ≠ []
        ∧ ∀ call ∈ r.tool_calls, call.function.name ≠ "complete_task") :
    ∀ (fuel : Nat) (msgs : List Message) (fs : List String) (step : Nat),
      ∃ gs, (BaseAgent.runLoop cfg msgs fs step fuel).1
          = { success := false, content := "",
              error := some ("Max steps (" ++ toString cfg.max_steps
                ++ ") reached without completion"),
              metadata := BaseAgent.loopMetadata cfg (step + fuel) gs }
        ∧ countAssistant (BaseAgent.runLoop cfg msgs fs step fuel).2
            = countAssistant msgs + fuel := by
  intro fuel
  induction fuel with
  | zero =>
    intro msgs fs step
    exact ⟨fs, by simp [BaseAgent.runLoop], by simp [BaseAgent.runLoop]⟩
  | succ fuel ih =>
    intro msgs fs step
    obtain ⟨response, hllm, hne, hnc⟩ := hok msgs
    obtain ⟨fs2, tms, hnext, hroles, -, -⟩ :=
      runCalls_no_complete cfg (step + 1) response.tool_calls fs
        (msgs ++ [{ role := "assistant", content := response.content,
                    tool_calls := some response.tool_calls }]) hnc
    rw [runLoop_succ_next cfg fuel msgs fs step response fs2 _ hllm hne hnext]
    obtain ⟨gs, h1, h2⟩ := ih _ fs2 (step + 1)
    have harith : step + 1 + fuel = step + (fuel + 1) := by omega
    have hca : countAssistant (msgs ++ [({ role := "assistant",
                                           content := response.content,
                                           tool_calls := some response.tool_calls } : Message)]
          ++ tms)
        = countAssistant msgs + 1 := by
      rw [countAssistant_append, countAssistant_append,
        countAssistant_of_tools tms (roles_all_tool tms response.tool_calls hroles)]
      simp [countAssistant]
    refine ⟨gs, ?_, ?_⟩
    · rw [h1, harith]
    · rw [h2, hca]
      omega

lemma runCalls_done_error (cfg : AgentConfig) (step : Nat)
    (hreg : lookupTool cfg.tools "complete_task" = none
      ∨ lookupTool cfg.tools "complete_task" = some CompleteTool.behavior) :
    ∀ (calls : List ToolCall) (fs : List String) (msgs : List Message)
      (r : ToolResult) (m2 : List Message),
      BaseAgent.runCalls cfg step calls fs msgs = CallsOutcome.done r m2 →
      r.error.isSome → r.success = false := by
  intro calls
  induction calls with
  | nil => intro fs msgs r m2 h; simp [BaseAgent.runCalls] at h
  | cons call rest ih =>
    intro fs msgs r m2 h
    by_cases hname : call.function.name = "complete_task"
    · simp only [BaseAgent.runCalls, hname, if_true, CallsOutcome.done.injEq] at h
      obtain ⟨hres, -⟩ := h
      subst hres
      intro herr
      have hsame : (BaseAgent.execCall cfg fs call).1.error.isSome →
          (BaseAgent.execCall cfg fs call).1.success = false := by
        rcases hreg with hnone | hbeh
        · simp [BaseAgent.execCall, hname, hnone]
        · simp only [BaseAgent.execCall, hname, hbeh]
          rcases hs : dictLookup call.function.arguments "success" with - | vs
          · simp [CompleteTool.behavior, hs]
          · rcases hsum : dictLookup call.function.arguments "summary" with - | vm
            · cases vs <;> simp [CompleteTool.behavior, hs, hsum]
            · cases vs <;> cases vm <;>
                simp [CompleteTool.behavior, hs, hsum, CompleteTool.execute]
      exact hsame herr
    · simp only [BaseAgent.runCalls, hname, if_false] at h
      exact ih _ _ _ _ h

lemma runLoop_error_onlyIfFailed (cfg : AgentConfig)
    (hreg : lookupTool cfg.tools "complete_task" = none
      ∨ lookupTool cfg.tools "complete_task" = some CompleteTool.behavior) :
    ∀ (fuel : Nat) (msgs : List Message) (fs : List String) (step : Nat),
      (BaseAgent.runLoop cfg msgs fs step fuel).1.error.isSome →
      (BaseAgent.runLoop cfg msgs fs step fuel).1.success = false := by
  intro fuel
  induction fuel with
  | zero => intro msgs fs step _; simp [BaseAgent.runLoop]
  | succ fuel ih =>
    intro msgs fs step
    rcases hllm : cfg.llm msgs with e | response
    · intro _; simp [BaseAgent.runLoop, hllm]
    · by_cases hcalls : response.tool_calls = []
      · intro _; simp [BaseAgent.runLoop, hllm, hcalls]
      · cases hrc : BaseAgent.runCalls cfg (step + 1) response.tool_calls fs
            (msgs ++ [{ role := "assistant", content := response.content,
                        tool_calls := some response.tool_calls }]) with
        | next fs2 msgs2 =>
          rw [runLoop_succ_next cfg fuel msgs fs step response fs2 msgs2 hllm hcalls hrc]
          exact ih msgs2 fs2 (step + 1)
        | done result msgs2 =>
          rw [runLoop_succ_done cfg fuel msgs fs step response result msgs2 hllm hcalls hrc]
          exact runCalls_done_error cfg (step + 1) hreg _ _ _ _ _ hrc

/-- C1: the claim that `is_path_safe` rejects every path denoting a location
outside the workspace root — absolute paths containing `..` segments
included — fails on the code: with root `/ws`, the absolute input
`/ws/../etc/passwd` is judged safe (`resolve_path` returns absolute paths
unresolved and `relative_to` compares parts lexically), yet it denotes
`/etc/passwd`, which is outside the root. -/
theorem C1_path_containment_bug :
    (WorkspaceManager.mk ["ws"]).is_path_safe (parsePath "/ws/../etc/passwd") = true
    ∧ canonicalLocation (WorkspaceManager.mk ["ws"]) (parsePath "/ws/../etc/passwd")
        = ["etc", "passwd"]
    ∧ spec_isWithin (WorkspaceManager.mk ["ws"]) (parsePath "/ws/../etc/passwd") = false
    ∧ (WorkspaceManager.mk ["ws"]).is_path_safe (parsePath "../../etc/passwd") = false
    ∧ (WorkspaceManager.mk ["ws"]).is_path_safe (parsePath "data/x.txt") = true := by
  decide

/-- C5: `EditTool.execute` on a file containing `old_string` exactly `k`
times succeeds iff `k = 1`; `k = 0` yields the not-found failure, `k ≥ 2` a
failure whose message states the count; on success the file afterwards holds
the single occurrence replaced by `new_string`. -/
theorem C5_edit_uniqueness (filepath : String)
    (content old_string new_string : List Char) (k : Nat)
    (hk : pyCount content old_string = k) :
    ((EditTool.applyEdit filepath content old_string new_string).result.success = true
      ↔ k = 1)
    ∧ (k = 0 →
        (EditTool.applyEdit filepath content old_string new_string).result.error
          = some ("old_string not found in file: " ++ previewString old_string))
    ∧ (2 ≤ k →
        (EditTool.applyEdit filepath content old_string new_string).result.error
          = some ("old_string appears " ++ toString k
              ++ " times in file. It must be unique to prevent accidental replacements."))
    ∧ (k = 1 → ∃ a b, content = a ++ old_string ++ b
        ∧ (EditTool.applyEdit filepath content old_string new_string).written
            = some (a ++ new_string ++ b)) := by
  by_cases hpat : old_string = []
  · subst hpat
    have hk' : content.length + 1 = k := by simpa [pyCount] using hk
    have hsub : isSubstring [] content = true := by
      cases content <;> simp [isSubstring, List.isPrefixOf]
    by_cases hgt : pyCount content [] > 1
    · have hkne : k ≠ 1 := by
        simp [pyCount] at hgt
        omega
      refine ⟨?_, ?_, ?_, ?_⟩
      · simp only [EditTool.applyEdit, hsub, Bool.not_true, Bool.false_eq_true, if_false, hgt,
          if_true]
        simpa using hkne
      · intro h0; omega
      · intro h2
        have hklt : 1 < k := by omega
        simp [EditTool.applyEdit, hsub, hgt, hk, hklt]
      · intro h1; exact absurd h1 hkne
    · have hlen : content.length = 0 := by
        by_contra hne
        apply hgt
        show pyCount content [] > 1
        unfold pyCount
        rw [if_pos rfl]
        omega
      have hcont : content = [] := List.length_eq_zero.mp hlen
      subst hcont
      have hk1 : k = 1 := by simpa using hk'.symm
      refine ⟨?_, ?_, ?_, ?_⟩
      · simp [EditTool.applyEdit, hsub, hgt, hk1]
      · intro h0; omega
      · intro h2; omega
      · intro _
        refine ⟨[], [], by simp, ?_⟩
        simp [EditTool.applyEdit, hsub, hgt, pyReplace]
  · have hcx : pyCountAux old_string content = k := by simpa [pyCount, hpat] using hk
    have hiff := isSubstring_iff_countAux_pos old_string hpat content
    rcases k with - | - | k2
    · have hsubf : isSubstring old_string content = false := by
        rw [← Bool.not_eq_true]
        intro hs
        have h1 := hiff.mp hs
        omega
      refine ⟨?_, ?_, ?_, ?_⟩
      · simp [EditTool.applyEdit, hsubf]
      · intro _; simp [EditTool.applyEdit, hsubf]
      · intro h2; omega
      · intro h1; omega
    · have hsubt : isSubstring old_string content = true := hiff.mpr (by omega)
      have hngt : ¬ pyCount content old_string > 1 := by
        simp [pyCount, hpat, hcx]
      obtain ⟨a, b, hab, hrep⟩ := countAux_one_decomp old_string new_string hpat content hcx
      refine ⟨?_, ?_, ?_, ?_⟩
      · simp [EditTool.applyEdit, hsubt, hngt]
      · intro h0; omega
      · intro h2; omega
      · intro _
        exact ⟨a, b, hab, by simp [EditTool.applyEdit, hsubt, hngt, pyReplace, hpat, hrep]⟩
    · have hsubt : isSubstring old_string content = true := hiff.mpr (by omega)
      have hgt : pyCount content old_string > 1 := by
        simp [pyCount, hpat, hcx]
      refine ⟨?_, ?_, ?_, ?_⟩
      · simp [EditTool.applyEdit, hsubt, hgt]
      · intro h0; omega
      · intro _
        simp [EditTool.applyEdit, hsubt, hgt, pyCount, hpat, hcx]
      · intro h1; omega

/-- C5 witness: the file `abab` contains `b` twice, so the edit fails and
the error message names the count 2. -/
theorem C5_edit_uniqueness_witness :
    pyCount (['a', 'b', 'a', 'b']) (['b']) = 2
    ∧ (EditTool.applyEdit "f.txt" (['a', 'b', 'a', 'b']) (['b']) (['X'])).result.success
        = false
    ∧ (EditTool.applyEdit "f.txt" (['a', 'b', 'a', 'b']) (['b']) (['X'])).result.error
        = some ("old_string appears " ++ toString 2
            ++ " times in file. It must be unique to prevent accidental replacements.") := by
  have hcount : pyCount (['a', 'b', 'a', 'b']) (['b']) = 2 := by
    simp [pyCount, pyCountAux, List.isPrefixOf]
  have h := C5_edit_uniqueness "f.txt" ['a', 'b', 'a', 'b'] ['b'] ['X'] 2 hcount
  refine ⟨hcount, ?_, h.2.2.1 (by omega)⟩
  rw [← Bool.not_eq_true]
  intro hs
  exact absurd (h.1.mp hs) (by omega)

/-- C2: when a response's call list has its first `complete_task` call at
position `i`, the loop executes calls `0..i` in order (one `tool` message per
preceding call, ids and names in order), never executes any call after `i`
(the outcome is independent of the suffix), and returns the completion tool's
result — success equal to the call's own `success` argument — with
`agent_type`, `steps_used` and `output_files` metadata added. -/
theorem C2_completion_stops_loop (cfg : AgentConfig) (step : Nat)
    (fs : List String) (msgs : List Message) (pre suf : List ToolCall)
    (c : ToolCall) (flag : Bool) (summary : String)
    (hreg : lookupTool cfg.tools "complete_task" = some CompleteTool.behavior)
    (hpre : ∀ call ∈ pre, call.function.name ≠ "complete_task")
    (hc : c.function.name = "complete_task")
    (hsucc : dictLookup c.function.arguments "success" = some (MVal.b flag))
    (hsum : dictLookup c.function.arguments "summary" = some (MVal.s summary)) :
    BaseAgent.runCalls cfg step (pre ++ c :: suf) fs msgs
      = BaseAgent.runCalls cfg step (pre ++ [c]) fs msgs
    ∧ ∃ result fs2 tms,
        BaseAgent.runCalls cfg step (pre ++ [c]) fs msgs
          = CallsOutcome.done result (msgs ++ tms)
        ∧ result.success = flag
        ∧ result.content = summary
        ∧ dictLookup result.metadata "agent_type" = some (MVal.s cfg.agent_type)
        ∧ dictLookup result.metadata "steps_used" = some (MVal.i (step : Int))
        ∧ dictLookup result.metadata "output_files" = some (MVal.strs fs2)
        ∧ tms.map Message.role = pre.map (fun _ => "tool")
        ∧ tms.map Message.tool_call_id = pre.map (fun call => some call.id)
        ∧ tms.map Message.name = pre.map (fun call => some call.function.name) := by
  refine ⟨runCalls_append_complete cfg step c hc pre suf fs msgs hpre, ?_⟩
  obtain ⟨fs2, tms, hnext, hroles, hids, hnames⟩ :=
    runCalls_no_complete cfg step pre fs msgs hpre
  have hexec : BaseAgent.execCall cfg fs2 c = (CompleteTool.execute flag summary, fs2) := by
    simp [BaseAgent.execCall, hc, hreg, CompleteTool.behavior, hsucc, hsum,
      CompleteTool.execute, dictLookup]
  have hsplit : BaseAgent.runCalls cfg step (pre ++ [c]) fs msgs
      = BaseAgent.runCalls cfg step [c] fs2 (msgs ++ tms) := by
    rw [runCalls_append cfg step pre [c] fs msgs, hnext]
  refine ⟨{ CompleteTool.execute flag summary with
            metadata := dictUpdate (CompleteTool.execute flag summary).metadata
              (BaseAgent.loopMetadata cfg step fs2) }, fs2, tms, ?_, rfl, rfl,
    (lookup_loopMetadataUpdate _ cfg step fs2).1,
    (lookup_loopMetadataUpdate _ cfg step fs2).2.1,
    (lookup_loopMetadataUpdate _ cfg step fs2).2.2,
    hroles, hids, hnames⟩
  rw [hsplit]
  simp [BaseAgent.runCalls, hc, hexec]

/-- C2 witness: a single well-formed completion call ends the dispatch with
the completion tool's own success flag and the loop metadata added. -/
theorem C2_completion_stops_loop_witness :
    ∃ result tms,
      BaseAgent.runCalls raisingCfg 1 ([] ++ [sampleCompleteCall]) [] []
        = CallsOutcome.done result ([] ++ tms)
      ∧ result.success = true
      ∧ result.content = "done"
      ∧ dictLookup result.metadata "steps_used" = some (MVal.i (1 : Int)) := by
  obtain ⟨-, result, fs2, tms, h2, h3, h4, -, h6, -, -, -, -⟩ :=
    C2_completion_stops_loop raisingCfg 1 [] [] [] [] sampleCompleteCall true "done"
      rfl (by simp) rfl rfl rfl
  exact ⟨result, tms, h2, h3, h4, h6⟩

/-- C10: a `complete_task` request with no such tool registered is not
treated as an ordinary unknown tool: the name check alone ends the run at
that call (any remaining calls are dropped), returning the locally
synthesized unknown-tool failure with the loop metadata added. -/
theorem C10_unknown_completion_terminates (cfg : AgentConfig) (step : Nat)
    (fs : List String) (msgs : List Message) (c : ToolCall) (rest : List ToolCall)
    (hreg : lookupTool cfg.tools "complete_task" = none)
    (hc : c.function.name = "complete_task") :
    BaseAgent.runCalls cfg step (c :: rest) fs msgs
      = CallsOutcome.done
          { success := false, content := "",
            error := some "Unknown tool: complete_task",
            metadata := BaseAgent.loopMetadata cfg step fs } msgs := by
  have hexec : BaseAgent.execCall cfg fs c
      = ({ success := false, error := some "Unknown tool: complete_task" }, fs) := by
    simp [BaseAgent.execCall, hc, hreg]
  simp [BaseAgent.runCalls, hc, hexec]
  rfl

/-- C10 witness: with no tools registered, a `complete_task` request ends the
dispatch immediately with the synthesized failure. -/
theorem C10_unknown_completion_terminates_witness :
    BaseAgent.runCalls bareCfg 2 ([⟨"id-9", ⟨"complete_task", []⟩⟩]) ["a.txt"] []
      = CallsOutcome.done
          { success := false, content := "",
            error := some "Unknown tool: complete_task",
            metadata := BaseAgent.loopMetadata bareCfg 2 ["a.txt"] } [] :=
  C10_unknown_completion_terminates bareCfg 2 ["a.txt"] []
    ⟨"id-9", ⟨"complete_task", []⟩⟩ [] rfl rfl

/-- C6: a model response with no tool calls terminates the loop at once with
a failed result tagged `abnormal_termination=true`, carrying the model's
text, and reporting `steps_used` equal to the model calls made so far
(`step + 1` after `step` earlier calls; 1 on the first reply of a run). -/
theorem C6_abnormal_termination (cfg : AgentConfig) (msgs : List Message)
    (fs : List String) (step fuel : Nat) (task : String) (r r0 : LLMResponse)
    (hllm : cfg.llm msgs = Except.ok r) (hempty : r.tool_calls = [])
    (hfirst : cfg.llm (BaseAgent.initialMessages cfg task) = Except.ok r0)
    (hempty0 : r0.tool_calls = []) (hmax : 1 ≤ cfg.max_steps) :
    (BaseAgent.runLoop cfg msgs fs step (fuel + 1)).1
      = { success := false, content := r.content,
          error := some "Agent did not explicitly complete the task (missing complete_task call)",
          metadata := BaseAgent.loopMetadata cfg (step + 1) fs
            ++ [("abnormal_termination", MVal.b true)] }
    ∧ (BaseAgent.run cfg task).1.success = false
    ∧ (BaseAgent.run cfg task).1.content = r0.content
    ∧ dictLookup (BaseAgent.run cfg task).1.metadata "abnormal_termination"
        = some (MVal.b true)
    ∧ dictLookup (BaseAgent.run cfg task).1.metadata "steps_used" = some (MVal.i 1) := by
  obtain ⟨m, hm⟩ : ∃ m, cfg.max_steps = m + 1 := ⟨cfg.max_steps - 1, by omega⟩
  have hrun : (BaseAgent.run cfg task).1
      = { success := false, content := r0.content,
          error := some "Agent did not explicitly complete the task (missing complete_task call)",
          metadata := BaseAgent.loopMetadata cfg 1 []
            ++ [("abnormal_termination", MVal.b true)] } := by
    simp only [BaseAgent.run, hm]
    simp [BaseAgent.runLoop, hfirst, hempty0]
  refine ⟨?_, ?_, ?_, ?_, ?_⟩
  · simp [BaseAgent.runLoop, hllm, hempty]
  · rw [hrun]
  · rw [hrun]
  · rw [hrun]; simp [BaseAgent.loopMetadata, dictLookup]
  · rw [hrun]; simp [BaseAgent.loopMetadata, dictLookup]

/-- C6 witness: a model that immediately answers in plain text makes the run
fail abnormally with `steps_used = 1`. -/
theorem C6_abnormal_termination_witness :
    (BaseAgent.run textOnlyCfg "do the thing").1.success = false
    ∧ (BaseAgent.run textOnlyCfg "do the thing").1.content = "plain text answer"
    ∧ dictLookup (BaseAgent.run textOnlyCfg "do the thing").1.metadata
        "abnormal_termination" = some (MVal.b true)
    ∧ dictLookup (BaseAgent.run textOnlyCfg "do the thing").1.metadata
        "steps_used" = some (MVal.i 1) := by
  have h := C6_abnormal_termination textOnlyCfg
    (BaseAgent.initialMessages textOnlyCfg "do the thing") [] 0 0 "do the thing"
    ⟨"plain text answer", []⟩ ⟨"plain text answer", []⟩ rfl rfl rfl rfl (by decide)
  exact ⟨h.2.1, h.2.2.1, h.2.2.2.1, h.2.2.2.2⟩

/-- C7: the loop makes at most `max_steps` model calls (assistant turns), and
when the model always keeps calling tools without ever naming the completion
tool, the run ends as a failure after exactly `max_steps` model calls,
reporting `steps_used = max_steps` and the accumulated output files. -/
theorem C7_step_budget :
    (∀ (cfg : AgentConfig) (task : String),
      ∃ n : Nat, dictLookup (BaseAgent.run cfg task).1.metadata "steps_used"
          = some (MVal.i (n : Int))
        ∧ n ≤ cfg.max_steps
        ∧ countAssistant (BaseAgent.run cfg task).2 ≤ cfg.max_steps)
    ∧ (∀ (cfg : AgentConfig) (task : String),
        (∀ msgs, ∃ r, cfg.llm msgs = Except.ok r ∧ r.tool_calls ≠ []
            ∧ ∀ call ∈ r.tool_calls, call.function.name ≠ "complete_task") →
        (BaseAgent.run cfg task).1.success = false
        ∧ (BaseAgent.run cfg task).1.error
            = some ("Max steps (" ++ toString cfg.max_steps ++ ") reached without completion")
        ∧ dictLookup (BaseAgent.run cfg task).1.metadata "steps_used"
            = some (MVal.i (cfg.max_steps : Int))
        ∧ (∃ gs, dictLookup (BaseAgent.run cfg task).1.metadata "output_files"
            = some (MVal.strs gs))
        ∧ countAssistant (BaseAgent.run cfg task).2 = cfg.max_steps) := by
  constructor
  · intro cfg task
    obtain ⟨n, h1, h2, h3⟩ :=
      runLoop_steps_le cfg cfg.max_steps (BaseAgent.initialMessages cfg task) [] 0
    have hinit : countAssistant (BaseAgent.initialMessages cfg task) = 0 := by
      simp [countAssistant, BaseAgent.initialMessages]
    refine ⟨n, h1, by omega, ?_⟩
    show countAssistant
        (BaseAgent.runLoop cfg (BaseAgent.initialMessages cfg task) [] 0 cfg.max_steps).2
      ≤ cfg.max_steps
    omega
  · intro cfg task hok
    obtain ⟨gs, h1, h2⟩ :=
      runLoop_exhausts cfg hok cfg.max_steps (BaseAgent.initialMessages cfg task) [] 0
    have hinit : countAssistant (BaseAgent.initialMessages cfg task) = 0 := by
      simp [countAssistant, BaseAgent.initialMessages]
    refine ⟨?_, ?_, ?_, ⟨gs, ?_⟩, ?_⟩
    · show (BaseAgent.runLoop cfg (BaseAgent.initialMessages cfg task) [] 0
          cfg.max_steps).1.success = false
      rw [h1]
    · show (BaseAgent.runLoop cfg (BaseAgent.initialMessages cfg task) [] 0
          cfg.max_steps).1.error = _
      rw [h1]
    · show dictLookup (BaseAgent.runLoop cfg (BaseAgent.initialMessages cfg task) [] 0
          cfg.max_steps).1.metadata "steps_used" = _
      rw [h1]
      simp [BaseAgent.loopMetadata, dictLookup]
    · show dictLookup (BaseAgent.runLoop cfg (BaseAgent.initialMessages cfg task) [] 0
          cfg.max_steps).1.metadata "output_files" = _
      rw [h1]
      simp [BaseAgent.loopMetadata, dictLookup]
    · show countAssistant (BaseAgent.runLoop cfg (BaseAgent.initialMessages cfg task) [] 0
          cfg.max_steps).2 = cfg.max_steps
      omega

/-- C7 witness: a model that always requests one non-completion tool drives a
`max_steps = 2` agent to a failure with `steps_used = 2` after exactly 2
model calls. -/
theorem C7_step_budget_witness :
    (BaseAgent.run loopingCfg "t").1.success = false
    ∧ dictLookup (BaseAgent.run loopingCfg "t").1.metadata "steps_used"
        = some (MVal.i (2 : Int))
    ∧ countAssistant (BaseAgent.run loopingCfg "t").2 = 2 := by
  have h := C7_step_budget.2 loopingCfg "t"
    (fun msgs => ⟨⟨"", [⟨"id-1", ⟨"noop", []⟩⟩]⟩, rfl, by decide, by decide⟩)
  exact ⟨h.1, h.2.2.1, h.2.2.2.2⟩

/-- C8: a registered non-completion tool whose execution raises does not end
the loop: the exception becomes a failed result and a `tool` message reading
`"Error: "` plus the error text is appended under the originating call id,
after which dispatch proceeds with the remaining calls. -/
theorem C8_tool_exception_isolated (cfg : AgentConfig) (step : Nat) (call : ToolCall)
    (rest : List ToolCall) (fs : List String) (msgs : List Message)
    (f : Dict → Except String ToolResult) (e : String)
    (hlook : lookupTool cfg.tools call.function.name = some f)
    (hname : call.function.name ≠ "complete_task")
    (hraise : f call.function.arguments = Except.error e) :
    (BaseAgent.execCall cfg fs call).1
      = { success := false, error := some ("Tool execution error: " ++ e) }
    ∧ BaseAgent.runCalls cfg step (call :: rest) fs msgs
      = BaseAgent.runCalls cfg step rest fs
          (msgs ++ [{ role := "tool",
                      content := "Error: " ++ ("Tool execution error: " ++ e),
                      tool_call_id := some call.id,
                      name := some call.function.name }]) := by
  have hexec : BaseAgent.execCall cfg fs call
      = ({ success := false, error := some ("Tool execution error: " ++ e) }, fs) := by
    simp [BaseAgent.execCall, hlook, hraise]
  refine ⟨by rw [hexec], ?_⟩
  simp [BaseAgent.runCalls, hname, hexec, BaseAgent.toolMessage]

/-- C8 witness: the raising tool `boom` yields an error `tool` message and
the dispatch continues with the remaining (empty) call list. -/
theorem C8_tool_exception_isolated_witness :
    BaseAgent.runCalls raisingCfg 1 ([⟨"id-7", ⟨"boom", []⟩⟩]) [] []
      = BaseAgent.runCalls raisingCfg 1 [] []
          [{ role := "tool",
             content := "Error: " ++ ("Tool execution error: " ++ "kaboom"),
             tool_call_id := some "id-7",
             name := some "boom" }] :=
  (C8_tool_exception_isolated raisingCfg 1 ⟨"id-7", ⟨"boom", []⟩⟩ [] [] []
    (fun _ => Except.error "kaboom") "kaboom" rfl (by decide) rfl).2

/-- C9: for a shell command that ran to completion, the result succeeds iff
the exit status is zero; a nonzero exit is a failure result (not an
exception) that still carries the captured, truncated stdout/stderr in its
content and metadata along with an `exit_code` entry. -/
theorem C9_shell_exit_semantics (command : String) (returncode : Option Int)
    (stdout0 stderr0 : String) :
    ((BashTool.buildResult command returncode stdout0 stderr0).success = true
      ↔ returncode.getD 0 = 0)
    ∧ (returncode.getD 0 ≠ 0 →
        (BashTool.buildResult command returncode stdout0 stderr0).success = false
        ∧ (BashTool.buildResult command returncode stdout0 stderr0).content
            = BashTool.combinedOutput (BashTool.truncateOutput stdout0)
                (BashTool.truncateOutput stderr0)
        ∧ dictLookup (BashTool.buildResult command returncode stdout0 stderr0).metadata
            "exit_code" = some (MVal.i (returncode.getD 0))
        ∧ dictLookup (BashTool.buildResult command returncode stdout0 stderr0).metadata
            "stdout" = some (MVal.s (BashTool.truncateOutput stdout0))
        ∧ dictLookup (BashTool.buildResult command returncode stdout0 stderr0).metadata
            "stderr" = some (MVal.s (BashTool.truncateOutput stderr0))
        ∧ (BashTool.buildResult command returncode stdout0 stderr0).error
            = some ("Command exited with code " ++ toString (returncode.getD 0))) := by
  rcases returncode with - | n
  · constructor
    · simp [BashTool.buildResult]
    · intro h
      simp at h
  · by_cases hn : n = 0
    · subst hn
      constructor
      · simp [BashTool.buildResult]
      · intro h
        simp at h
    · constructor
      · simp [BashTool.buildResult, hn]
      · intro _
        refine ⟨?_, ?_, ?_, ?_, ?_, ?_⟩ <;>
          simp [BashTool.buildResult, hn, dictLookup]

/-- C9 witness: exit code 1 yields a failure carrying the output and the
exit-code metadata. -/
theorem C9_shell_exit_semantics_witness :
    (BashTool.buildResult "false" (some 1) "boom" "").success = false
    ∧ dictLookup (BashTool.buildResult "false" (some 1) "boom" "").metadata "exit_code"
        = some (MVal.i 1)
    ∧ (BashTool.buildResult "false" (some 1) "boom" "").error
        = some ("Command exited with code " ++ toString (1 : Int)) := by
  have h := (C9_shell_exit_semantics "false" (some 1) "boom" "").2 (by decide)
  exact ⟨h.1, by simpa using h.2.2.1, by simpa using h.2.2.2.2.2⟩

/-- C3 counterexample: `CallAgentTool.execute` with an empty task description
returns a result whose metadata carries none of the three keys, so not every
result surfaced by `CallAgentTool.execute` has them. -/
theorem C3_counterexample :
    dictLookup (CallAgentTool.execute (fun _ => Except.ok default) (Except.ok ())
        "searcher" "" []).metadata "agent_type" = none
    ∧ dictLookup (CallAgentTool.execute (fun _ => Except.ok default) (Except.ok ())
        "searcher" "" []).metadata "steps_used" = none
    ∧ dictLookup (CallAgentTool.execute (fun _ => Except.ok default) (Except.ok ())
        "searcher" "" []).metadata "output_files" = none := by
  have h : pyStrip "" = "" := rfl
  refine ⟨?_, ?_, ?_⟩ <;> simp [CallAgentTool.execute, h, dictLookup]

/-- C3 (amended): every result of `BaseAgent.run` carries `agent_type`,
`steps_used` (≥ 0) and `output_files`; `CallAgentTool.execute` carries them
exactly when it surfaces the nested agent's run result (non-empty task,
creation succeeded, run returned), while its early failure paths lack
`steps_used` and `output_files`. -/
theorem C3_agent_metadata_amended :
    (∀ (cfg : AgentConfig) (task : String),
      hasAgentMetadata (BaseAgent.run cfg task).1)
    ∧ (∀ (subRun : String → Except String ToolResult) (create : Except String Unit)
        (agent_type task : String) (context_files : List String),
        (∀ t, ∃ r, subRun t = Except.ok r ∧ hasAgentMetadata r) →
        pyStrip task ≠ "" →
        create = Except.ok () →
        hasAgentMetadata
          (CallAgentTool.execute subRun create agent_type task context_files)) := by
  constructor
  · intro cfg task
    exact runLoop_hasAgentMetadata cfg cfg.max_steps
      (BaseAgent.initialMessages cfg task) [] 0
  · intro subRun create agent_type task context_files hall htask hcreate
    subst hcreate
    obtain ⟨r, hr, hmeta⟩ := hall
      (if context_files = [] then task
       else
         task ++ "\n\nContext files to review: "
           ++ String.intercalate ", " context_files
           ++ "\nRead these files first to understand the existing work.")
    simpa [CallAgentTool.execute, htask, hr] using hmeta

/-- C3 amended witness: a nested run result carrying the three keys is
surfaced verbatim by `CallAgentTool.execute`. -/
theorem C3_agent_metadata_amended_witness :
    hasAgentMetadata
      (CallAgentTool.execute
        (fun _ => Except.ok
          { success := true, content := "ok",
            error := none,
            metadata := [("agent_type", MVal.s "searcher"),
                         ("steps_used", MVal.i 3),
                         ("output_files", MVal.strs [])] })
        (Except.ok ()) "searcher" "find things" []) := by
  refine C3_agent_metadata_amended.2 _ _ "searcher" "find things" []
    (fun t => ⟨_, rfl, ⟨"searcher", by simp [dictLookup]⟩,
      ⟨3, by simp [dictLookup]⟩, ⟨[], by simp [dictLookup]⟩⟩)
    (by decide) rfl

/-- C4 counterexample: the completion tool reports failure with no error set,
refuting "error is set iff success is false" as stated. -/
theorem C4_counterexample :
    (CompleteTool.execute false "could not finish the task").success = false
    ∧ (CompleteTool.execute false "could not finish the task").error = none :=
  ⟨rfl, rfl⟩

/-- C4 (amended): `error` is set only on failures — the edit and shell tools
satisfy the full iff, and every agent-run result with an error is a failure —
but the completion tool never sets `error`, even when reporting failure, so
the "only if" direction fails for results it produces. -/
theorem C4_error_iff_failure_amended :
    (∀ (filepath : String) (content old_string new_string : List Char),
      ((EditTool.applyEdit filepath content old_string new_string).result.error.isSome
        ↔ (EditTool.applyEdit filepath content old_string new_string).result.success
            = false))
    ∧ (∀ (command : String) (returncode : Option Int) (stdout0 stderr0 : String),
      ((BashTool.buildResult command returncode stdout0 stderr0).error.isSome
        ↔ (BashTool.buildResult command returncode stdout0 stderr0).success = false))
    ∧ (∀ (flag : Bool) (summary : String),
      (CompleteTool.execute flag summary).error = none)
    ∧ (∀ (cfg : AgentConfig) (task : String),
        lookupTool cfg.tools "complete_task" = none
          ∨ lookupTool cfg.tools "complete_task" = some CompleteTool.behavior →
        (BaseAgent.run cfg task).1.error.isSome →
        (BaseAgent.run cfg task).1.success = false) := by
  refine ⟨?_, ?_, ?_, ?_⟩
  · intro fp content old new
    by_cases h1 : isSubstring old content = true
    · by_cases h2 : pyCount content old > 1
      · simp [EditTool.applyEdit, h1, h2]
      · simp [EditTool.applyEdit, h1, h2]
    · have h1' : isSubstring old content = false := by
        simp only [← Bool.not_eq_true]; exact h1
      simp [EditTool.applyEdit, h1']
  · intro cmd rc out err
    rcases rc with - | n
    · simp [BashTool.buildResult]
    · by_cases hn : n = 0
      · subst hn; simp [BashTool.buildResult]
      · simp [BashTool.buildResult, hn]
  · intro flag summary; rfl
  · intro cfg task hreg
    exact runLoop_error_onlyIfFailed cfg hreg cfg.max_steps
      (BaseAgent.initialMessages cfg task) [] 0

/-- C4 amended witness: a failing shell result satisfies the iff, and an
agent whose only tools are the repository's completion tool satisfies the
only-if direction. -/
theorem C4_error_iff_failure_amended_witness :
    ((BashTool.buildResult "false" (some 1) "" "").error.isSome
      ↔ (BashTool.buildResult "false" (some 1) "" "").success = false)
    ∧ ((BaseAgent.run textOnlyCfg "win").1.error.isSome →
        (BaseAgent.run textOnlyCfg "win").1.success = false) :=
  ⟨C4_error_iff_failure_amended.2.1 "false" (some 1) "" "",
   C4_error_iff_failure_amended.2.2.2 textOnlyCfg "win" (Or.inr rfl)⟩

end Researcher
